/-
  Verification of the AgentUse VS Code extension (agentuse/vscode-agentuse).

  Shallow embedding of the extension's pure logic:
  * the frontmatter block classifiers (isInMcpServersBlock / isInSubagentsBlock /
    isInToolsBlock),
  * the completion provider (provideCompletionItems, getExistingFields),
  * the static lookup tables (MODELS, FRONTMATTER_FIELDS, MCP_SERVER_FIELDS,
    MCP_COMMANDS, COMMON_MCP_SERVERS),
  * the pseudoterminal (open / handleInput and the stream handlers), whose
    side-effecting behaviour is modelled as explicit effect lists,
  * the workspace file scan (getAgentUseFiles / findAgentUseFilesRecursive),
    with the file system modelled as a function from directory paths to
    `Except`-style readdir results.

  JavaScript strings are modelled as Lean `String` (operating on `String.data`,
  the underlying character list).  Documents use Unix line endings; the
  JS `\s` character class is modelled by its ASCII part (the source only ever
  splits on plain newlines and indents with spaces).
-/
import Mathlib

namespace AgentUse

/-! ## String helpers (JS semantics) -/

/-- ASCII part of the JavaScript `\s` (whitespace) character class. -/
def jsIsSpace (c : Char) : Bool :=
  c = ' ' || c = '\t' || c = '\r' || c = '\x0b' || c = '\x0c'

/-- JS `s.startsWith(pre)` / regex `^pre`. -/
def strStarts (s pre : String) : Bool :=
  pre.data.isPrefixOf s.data

/-- JS `s.endsWith(suf)`. -/
def strEnds (s suf : String) : Bool :=
  suf.data.isSuffixOf s.data

/-- Truthiness of JS `s.trim()`: the trimmed string is nonempty iff some
    character of `s` is not whitespace. -/
def trimTruthy (s : String) : Bool :=
  s.data.any (fun c => !(jsIsSpace c))

/-- JS regex test `/^\s/`: the string starts with a whitespace character. -/
def headIsSpace (s : String) : Bool :=
  match s.data with
  | [] => false
  | c :: _ => jsIsSpace c

/-- JS `text.split('\n')` on the underlying character list. -/
def splitLinesAux : List Char → List (List Char)
  | [] => [[]]
  | c :: rest =>
    if c = '\n' then [] :: splitLinesAux rest
    else
      match splitLinesAux rest with
      | [] => [[c]]
      | l :: ls => (c :: l) :: ls

/-- JS `text.split('\n')`. -/
def linesOf (s : String) : List String :=
  (splitLinesAux s.data).map String.mk

/-- `document.lineAt(line).text` (text of the line, without the line break). -/
def lineAt (text : String) (line : Nat) : String :=
  (linesOf text).getD line ""

/-- `document.offsetAt(position)` for a document with `\n` line separators. -/
def offsetAt (text : String) (line ch : Nat) : Nat :=
  ((linesOf text).take line).foldl (fun a l => a + l.data.length + 1) 0 + ch

/-! ## Frontmatter block classifiers

Source (extension.ts): `isInMcpServersBlock`, `isInSubagentsBlock`,
`isInToolsBlock`.  Each walks the frontmatter lines `0 .. position.line - 1`
carrying an `inBlock` flag:

```
let inBlock = false;
for (let i = 0; i <= frontmatterLineIndex; i++) {
  const line = lines[i];
  if (line.match(/^(mcp_servers|mcpServers):/)) { inBlock = true; }
  else if (inBlock && line.trim() && !line.match(/^\s/)) { inBlock = false; }
}
return inBlock;
```
-/

/-- A line that terminates an open block: nonblank after trimming and not
    beginning with a whitespace character (`line.trim() && !line.match(/^\s/)`). -/
def blockTerm (line : String) : Bool :=
  trimTruthy line && !(headIsSpace line)

/-- `/^(mcp_servers|mcpServers):/` -/
def mcpOpenerLine (line : String) : Bool :=
  strStarts line "mcp_servers:" || strStarts line "mcpServers:"

/-- `/^subagents:/` -/
def subagentsOpenerLine (line : String) : Bool :=
  strStarts line "subagents:"

/-- `/^tools:/` -/
def toolsOpenerLine (line : String) : Bool :=
  strStarts line "tools:"

/-- The `inBlock` loop of the classifiers, over a prefix of the frontmatter
    lines, starting from flag `acc`. -/
def blockScanAux (opener : String → Bool) (acc : Bool) : List String → Bool
  | [] => acc
  | l :: ls =>
    if opener l then blockScanAux opener true ls
    else if acc && blockTerm l then blockScanAux opener false ls
    else blockScanAux opener acc ls

/-- Common shape of the three classifiers.  `posLine` is `position.line`;
    line 0 of the document is the opening `---`, so the frontmatter line index
    is `posLine - 1`; an out-of-range index yields `false`. -/
def isInBlock (opener : String → Bool) (frontmatter : String) (posLine : Nat) : Bool :=
  let lines := linesOf frontmatter
  if posLine = 0 then false
  else if lines.length ≤ posLine - 1 then false
  else blockScanAux opener false (lines.take ((posLine - 1) + 1))

def isInMcpServersBlock (frontmatter : String) (posLine : Nat) : Bool :=
  isInBlock mcpOpenerLine frontmatter posLine

def isInSubagentsBlock (frontmatter : String) (posLine : Nat) : Bool :=
  isInBlock subagentsOpenerLine frontmatter posLine

def isInToolsBlock (frontmatter : String) (posLine : Nat) : Bool :=
  isInBlock toolsOpenerLine frontmatter posLine

/-! ## Static lookup tables (extension.ts, completion data) -/

structure ModelEntry where
  label : String
  detail : String
deriving DecidableEq, Repr

structure FieldEntry where
  label : String
  detail : String
  insertText : String
deriving DecidableEq, Repr

structure ServerTemplate where
  detail : String
  snippet : String
deriving DecidableEq, Repr

def MODELS : List ModelEntry := [
  ⟨"anthropic:claude-opus-4-1", "Most capable Claude model"⟩,
  ⟨"anthropic:claude-sonnet-4-0", "Balanced performance and speed"⟩,
  ⟨"anthropic:claude-3-5-haiku-latest", "Fast and cost-effective"⟩,
  ⟨"openai:gpt-5", "Most capable OpenAI model"⟩,
  ⟨"openai:gpt-5-mini", "Balanced OpenAI model"⟩,
  ⟨"openai:gpt-5-nano", "Fast and lightweight OpenAI model"⟩,
  ⟨"openai:gpt-4.1", "GPT-4.1 model"⟩,
  ⟨"openai:gpt-4.1-mini", "Fast GPT-4.1 model"⟩,
  ⟨"openai:o4-mini", "Reasoning model"⟩]

def FRONTMATTER_FIELDS : List FieldEntry := [
  ⟨"model", "LLM provider and model", "model: "⟩,
  ⟨"timeout", "Execution timeout in milliseconds", "timeout: "⟩,
  ⟨"maxSteps", "Maximum reasoning steps", "maxSteps: "⟩,
  ⟨"tools", "Custom tool references", "tools:\n  - "⟩,
  ⟨"mcp_servers", "MCP server configurations", "mcp_servers:\n  "⟩,
  ⟨"subagents", "Sub-agent definitions", "subagents:\n  - path: "⟩]

def MCP_SERVER_FIELDS : List FieldEntry := [
  ⟨"command", "Command to run (npx, node, uvx, uv)", "command: "⟩,
  ⟨"args", "Command arguments", "args:\n      - "⟩,
  ⟨"requiredEnvVars", "Required environment variables", "requiredEnvVars:\n      - "⟩,
  ⟨"allowedEnvVars", "Optional environment variables", "allowedEnvVars:\n      - "⟩,
  ⟨"env", "Direct environment variables", "env:\n      "⟩,
  ⟨"url", "Remote MCP server URL", "url: "⟩,
  ⟨"auth", "Authentication configuration", "auth:\n      type: bearer\n      token: $\x7b"⟩]

def MCP_COMMANDS : List ModelEntry := [
  ⟨"npx", "Run npm package"⟩,
  ⟨"node", "Run Node.js script"⟩,
  ⟨"uvx", "Run Python package"⟩,
  ⟨"uv", "Run Python with uv"⟩]

/-- The `COMMON_MCP_SERVERS` object, as its `Object.entries` list
    (insertion order). -/
def COMMON_MCP_SERVERS : List (String × ServerTemplate) := [
  ("filesystem", ⟨"File system access",
    "filesystem:\n    command: \"npx\"\n    args:\n      - \"-y\"\n      - \"@modelcontextprotocol/server-filesystem\"\n      - \"./tmp\""⟩),
  ("puppeteer", ⟨"Browser automation",
    "puppeteer:\n    command: \"npx\"\n    args:\n      - \"-y\"\n      - \"@modelcontextprotocol/server-puppeteer\""⟩),
  ("slack", ⟨"Slack integration",
    "slack:\n    command: \"npx\"\n    args:\n      - \"-y\"\n      - \"@modelcontextprotocol/server-slack\"\n    allowedEnvVars:\n      - SLACK_BOT_TOKEN\n      - SLACK_TEAM_ID"⟩),
  ("fetch", ⟨"HTTP fetch capabilities",
    "fetch:\n    command: \"uvx\"\n    args:\n      - \"mcp-server-fetch\""⟩),
  ("github", ⟨"GitHub API access",
    "github:\n    command: \"npx\"\n    args:\n      - \"-y\"\n      - \"@modelcontextprotocol/server-github\"\n    requiredEnvVars:\n      - GITHUB_PERSONAL_ACCESS_TOKEN"⟩),
  ("memory", ⟨"Persistent memory storage",
    "memory:\n    command: \"npx\"\n    args:\n      - \"-y\"\n      - \"@modelcontextprotocol/server-memory\""⟩),
  ("brave-search", ⟨"Brave search API",
    "brave-search:\n    command: \"npx\"\n    args:\n      - \"-y\"\n      - \"@modelcontextprotocol/server-brave-search\"\n    requiredEnvVars:\n      - BRAVE_API_KEY"⟩),
  ("google-maps", ⟨"Google Maps API",
    "google-maps:\n    command: \"npx\"\n    args:\n      - \"-y\"\n      - \"@modelcontextprotocol/server-google-maps\"\n    requiredEnvVars:\n      - GOOGLE_MAPS_API_KEY"⟩),
  ("sqlite", ⟨"SQLite database access",
    "sqlite:\n    command: \"uvx\"\n    args:\n      - \"mcp-server-sqlite\"\n      - \"--db-path\"\n      - \"./data.db\""⟩),
  ("postgres", ⟨"PostgreSQL database access",
    "postgres:\n    command: \"npx\"\n    args:\n      - \"-y\"\n      - \"@modelcontextprotocol/server-postgres\"\n    requiredEnvVars:\n      - POSTGRES_CONNECTION_STRING"⟩),
  ("exa", ⟨"Exa search API",
    "exa:\n    command: \"npx\"\n    args:\n      - \"-y\"\n      - \"exa-mcp-server\"\n    requiredEnvVars:\n      - EXA_API_KEY"⟩),
  ("notion", ⟨"Notion integration",
    "notion:\n    command: \"npx\"\n    args:\n      - \"-y\"\n      - \"@suekou/mcp-notion-server\"\n    requiredEnvVars:\n      - NOTION_API_KEY"⟩),
  ("slack-webhook", ⟨"Slack webhook notifications",
    "slack:\n    command: \"npx\"\n    args:\n      - \"-y\"\n      - \"@agentuse/mcp-slack-webhook\"\n    requiredEnvVars:\n      - SLACK_WEBHOOK_URL"⟩)]

/-- The five tables bundled, for stating that no operation mutates them. -/
structure Tables where
  models : List ModelEntry
  frontmatterFields : List FieldEntry
  mcpServerFields : List FieldEntry
  mcpCommands : List ModelEntry
  commonMcpServers : List (String × ServerTemplate)
deriving DecidableEq

/-- The tables as loaded at module load time. -/
def initTables : Tables :=
  ⟨MODELS, FRONTMATTER_FIELDS, MCP_SERVER_FIELDS, MCP_COMMANDS, COMMON_MCP_SERVERS⟩

/-! ## Completion items -/

inductive CKind where
  | snippet | value | property | module | file
deriving DecidableEq, Repr

structure CItem where
  label : String
  detail : String
  insertText : String
  kind : CKind
  isSnippetText : Bool
deriving DecidableEq, Repr

/-- `createCompletion(label, detail, insertText, kind)`. -/
def createCompletion (label detail insertText : String) (kind : CKind) : CItem :=
  ⟨label, detail, insertText, kind, false⟩

/-- `createSnippetCompletion(label, detail, snippet, kind)`. -/
def createSnippetCompletion (label detail snippet : String) (kind : CKind) : CItem :=
  ⟨label, detail, snippet, kind, true⟩

/-! ## Frontmatter extraction

`text.match(/^---\n([\s\S]*?)(\n---|\n?$)/)`: anchored at the start, so the
document must begin with `---\n`; the lazy group then ends at the first
occurrence of `\n---`, or failing that just before a final `\n`, or at the end
of the text.  We return the content group and the length of the full match. -/

/-- Index of the first occurrence of `pat` in `l` (as a sublist starting
    there), if any. -/
def findSub (pat : List Char) : List Char → Option Nat
  | [] => if pat.isPrefixOf ([] : List Char) then some 0 else none
  | c :: rest =>
    if pat.isPrefixOf (c :: rest) then some 0
    else (findSub pat rest).map (· + 1)

/-- The frontmatter regex match: `some (content, fullMatchLength)` or `none`. -/
def frontmatterMatch (text : String) : Option (String × Nat) :=
  let cs := text.data
  if "---\n".data.isPrefixOf cs then
    let rest := cs.drop 4
    match findSub "\n---".data rest with
    | some i => some (String.mk (rest.take i), 4 + i + 4)
    | none =>
      match rest.getLast? with
      | some '\n' => some (String.mk (rest.take (rest.length - 1)), cs.length)
      | _ => some (String.mk rest, cs.length)
  else none

/-! ## Completion provider -/

/-- JS `\w` character class. -/
def jsWordChar (c : Char) : Bool :=
  c.isAlpha || c.isDigit || c = '_'

/-- `line.match(/^(\w+):/)`: the leading word of the line when it is directly
    followed by a colon. -/
def lineFieldName (l : String) : Option String :=
  let w := l.data.takeWhile jsWordChar
  if w.isEmpty then none
  else
    match l.data.drop w.length with
    | ':' :: _ => some (String.mk w)
    | _ => none

/-- `getExistingFields(frontmatter)`: the set of top-level keys already
    present, modelled as the list of matches (membership is what is used). -/
def getExistingFields (frontmatter : String) : List String :=
  (linesOf frontmatter).filterMap lineFieldName

/-- `/^\s*model:\s*$/` -/
def matchesModelValue (s : String) : Bool :=
  let t := s.data.dropWhile jsIsSpace
  "model:".data.isPrefixOf t && (t.drop 6).all jsIsSpace

/-- `/^\s*command:\s*["']?$/` -/
def matchesCommandValue (s : String) : Bool :=
  let t := s.data.dropWhile jsIsSpace
  "command:".data.isPrefixOf t &&
    (let u := (t.drop 8).dropWhile jsIsSpace
     u.isEmpty || u == ['"'] || u == ['\''])

/-- `/^\s*-\s*$/` -/
def matchesDashOnly (s : String) : Bool :=
  match s.data.dropWhile jsIsSpace with
  | '-' :: r => r.all jsIsSpace
  | _ => false

/-- `/^\s*path:\s*$/` -/
def matchesPathValue (s : String) : Bool :=
  let t := s.data.dropWhile jsIsSpace
  "path:".data.isPrefixOf t && (t.drop 5).all jsIsSpace

/-- The `---` starter snippet offered on line 0 of a document without
    frontmatter. -/
def startFrontmatterItem : CItem :=
  createSnippetCompletion "---" "Start frontmatter"
    "---\nmodel: $\x7b1|anthropic:claude-sonnet-4-0,anthropic:claude-opus-4-1,openai:gpt-5|\x7d\n---\n\n$0"
    CKind.snippet

/-- `provideCompletionItems` of the completion provider.  `agentFiles` stands
    for the file-system dependent result of `getAgentUseFiles` (only reached
    in the subagents `path:` branch). -/
def provideCompletionItems (tbl : Tables) (agentFiles : List CItem)
    (text : String) (line ch : Nat) : List CItem :=
  let lineText := lineAt text line
  let linePre : String := String.mk (lineText.data.take ch)
  match frontmatterMatch text with
  | none =>
    if line = 0 ∧ linePre = "" then [startFrontmatterItem] else []
  | some (content, fmEnd) =>
    let cursorOffset := offsetAt text line ch
    if cursorOffset < 4 ∨ cursorOffset > fmEnd then []
    else
      let inMcp := isInMcpServersBlock content line
      let inSub := isInSubagentsBlock content line
      let inT := isInToolsBlock content line
      let indent := (linePre.data.takeWhile jsIsSpace).length
      if matchesModelValue linePre then
        tbl.models.map (fun m => createCompletion m.label m.detail m.label CKind.value)
      else if matchesCommandValue linePre then
        tbl.mcpCommands.map (fun c =>
          createCompletion c.label c.detail ("\"" ++ c.label ++ "\"") CKind.value)
      else if inMcp ∧ 4 ≤ indent ∧ ¬ trimTruthy linePre then
        tbl.mcpServerFields.map (fun f =>
          createCompletion f.label f.detail f.insertText CKind.property)
      else if inSub ∧ 2 ≤ indent ∧ matchesDashOnly linePre then
        [createCompletion "path" "Path to subagent file" "path: ./" CKind.property]
      else if inSub ∧ 2 ≤ indent ∧ matchesPathValue linePre then
        agentFiles
      else if inSub ∧ 2 ≤ indent ∧ ¬ trimTruthy linePre then
        [createCompletion "name" "Reference name for subagent" "name: " CKind.property]
      else if inT ∧ 2 ≤ indent ∧ matchesDashOnly linePre then
        []
      else if indent = 0 ∧ ¬ trimTruthy linePre then
        (tbl.frontmatterFields.filter
          (fun f => !((getExistingFields content).contains f.label))).map
          (fun f => createCompletion f.label f.detail f.insertText CKind.property)
      else []

/-! ## Pseudoterminal (class AgentUsePseudoterminal)

Side effects are modelled as explicit effect lists:
`termWrite` is `writeEmitter.fire`, `spawn` is `cp.spawn` (the source passes
`shell: true` and an augmented environment as options; command and argument
list are as recorded here), `sendSignal` is `process.kill(sig)`, and
`stdinWrite` is `process.stdin.write`. -/

inductive PtyEffect where
  | termWrite (s : String)
  | spawn (cmd : String) (args : List String)
  | sendSignal (sig : String)
  | stdinWrite (s : String)
deriving DecidableEq, Repr

def PtyEffect.isSpawn : PtyEffect → Bool
  | .spawn _ _ => true
  | _ => false

def PtyEffect.isSendSignal : PtyEffect → Bool
  | .sendSignal _ => true
  | _ => false

def PtyEffect.isStdinWrite : PtyEffect → Bool
  | .stdinWrite _ => true
  | _ => false

/-- The `'='.repeat(80)` banner. -/
def eqBanner : String := String.mk (List.replicate 80 '=')

/-- `open()`: two banner writes, then the single `cp.spawn('agentuse',
    ['run', this.filePath], ...)` call (the stream/close/error handlers it
    registers are modelled separately below). -/
def ptyOpen (filePath : String) : List PtyEffect :=
  [ .termWrite ("Running: agentuse run \"" ++ filePath ++ "\"\r\n"),
    .termWrite (eqBanner ++ "\r\n\r\n"),
    .spawn "agentuse" ["run", filePath] ]

/-- `data.toString().replace(/\n/g, '\r\n')` on the character list. -/
def crlfAux : List Char → List Char
  | [] => []
  | c :: rest =>
    if c = '\n' then '\r' :: '\n' :: crlfAux rest
    else c :: crlfAux rest

/-- `data.toString().replace(/\n/g, '\r\n')`. -/
def crlf (s : String) : String := String.mk (crlfAux s.data)

/-- The `process.stdout.on('data', ...)` handler. -/
def onStdoutData (data : String) : List PtyEffect :=
  [ .termWrite (crlf data) ]

/-- The `process.stderr.on('data', ...)` handler. -/
def onStderrData (data : String) : List PtyEffect :=
  [ .termWrite (crlf data) ]

/-- The `process.on('close', ...)` handler (`code` is the process exit
    code). -/
def onCloseEvent (code : Int) : List PtyEffect :=
  [ .termWrite ("\r\n" ++ eqBanner ++ "\r\n"),
    .termWrite ("Process exited with code " ++ toString code ++ "\r\n") ]

/-- Observable state of `this.process` in `handleInput`: whether the child
    exists, whether it was already killed, and whether it has a stdin
    stream. -/
structure ChildProc where
  killed : Bool
  hasStdin : Bool
deriving DecidableEq, Repr

/-- `handleInput(data)`. -/
def handleInput (proc : Option ChildProc) (data : String) : List PtyEffect :=
  if data = "\x03" then
    match proc with
    | some p => if ¬ p.killed then [.sendSignal "SIGINT", .termWrite "^C\r\n"] else []
    | none => []
  else
    match proc with
    | some p => if p.hasStdin then [.stdinWrite data] else []
    | none => []

/-! ## The `agentuse.run` command (activate) -/

inductive RunEffect where
  | showError (msg : String)
  | saveDocument
  | createTerminal (name : String)
  | showTerminal
  | ptyEff (e : PtyEffect)
deriving DecidableEq, Repr

def RunEffect.isCreateTerminal : RunEffect → Bool
  | .createTerminal _ => true
  | _ => false

def RunEffect.isSpawn : RunEffect → Bool
  | .ptyEff e => e.isSpawn
  | _ => false

def RunEffect.isSave : RunEffect → Bool
  | .saveDocument => true
  | _ => false

/-- `filePath.split('/').pop() || 'output'`. -/
def fileNameOf (filePath : String) : String :=
  match (filePath.splitOn "/").getLast? with
  | some s => if s = "" then "output" else s
  | none => "output"

/-- The `agentuse.run` command callback.  `activeEditor` is the path of the
    active editor's document, when one exists.  When the terminal is created,
    the host attaches it and invokes the pseudoterminal's `open`, whose
    effects are appended as `ptyEff`. -/
def agentuseRunCommand (activeEditor : Option String) : List RunEffect :=
  match activeEditor with
  | none => [.showError "No active file"]
  | some filePath =>
    if ¬ strEnds filePath ".agentuse" then
      [.showError "Current file is not an .agentuse file"]
    else
      [.saveDocument, .createTerminal ("AgentUse: " ++ fileNameOf filePath)]
        ++ (ptyOpen filePath).map RunEffect.ptyEff
        ++ [.showTerminal]

/-! ## Workspace scan (getAgentUseFiles / findAgentUseFilesRecursive)

Paths are modelled as component lists; `path.join(dir, name)` is
`dir ++ [name]`.  The file system is a function from a directory path to the
`fs.readdirSync` result, which either throws (`Except.error`) or returns the
entries. -/

structure DirEntry where
  name : String
  isDir : Bool

def FileSystem : Type := List String → Except Unit (List DirEntry)

/-- `findAgentUseFilesRecursive(dir, maxDepth, currentDepth)`.  The `catch`
    around `readdirSync` maps a thrown error to the files collected so far
    (none at that point).  Termination: `maxDepth - currentDepth` strictly
    decreases at each recursive call. -/
def findAgentUseFilesRecursive (fs : FileSystem) (dir : List String)
    (maxDepth currentDepth : Nat) : List (List String) :=
  if maxDepth ≤ currentDepth then []
  else
    match fs dir with
    | .error _ => []
    | .ok entries =>
      entries.flatMap (fun e =>
        if strStarts e.name "." || e.name == "node_modules" then []
        else if e.isDir then
          findAgentUseFilesRecursive fs (dir ++ [e.name]) maxDepth (currentDepth + 1)
        else if strEnds e.name ".agentuse" then [dir ++ [e.name]]
        else [])
termination_by maxDepth - currentDepth
decreasing_by omega

/-- `getAgentUseFiles(document)`: empty when the document is in no workspace
    folder, otherwise the depth-3 scan of the workspace root.  (The source
    wraps each path into a completion item labelled with a path relative to
    the document's directory; we model the result by the underlying paths.
    The surrounding `try/catch` is unreachable because the recursive scan
    already absorbs every error.) -/
def getAgentUseFiles (fs : FileSystem) (workspaceFolder : Option (List String)) :
    List (List String) :=
  match workspaceFolder with
  | none => []
  | some root => findAgentUseFilesRecursive fs root 3 0

/-! ## Extension operations and state (for table immutability)

The extension's operations: completion, hover, the run command, and terminal
input.  None of them assigns to any of the five tables — completion and hover
only read them; the run command and terminal input touch only the terminal
and child-process state. -/

inductive Op where
  | completion (text : String) (line ch : Nat) (agentFiles : List CItem)
  | hover (lineText word : String)
  | runCmd (activeEditor : Option String)
  | ptyInput (data : String)

structure ExtState where
  tables : Tables
  terminals : List String
  proc : Option ChildProc

def initState : ExtState := ⟨initTables, [], none⟩

/-- One extension operation.  `completion` and `hover` compute their result
    from the tables and change nothing; `runCmd` may create a terminal and
    spawn a child; Ctrl+C input kills a live child. -/
def step (s : ExtState) (op : Op) : ExtState :=
  match op with
  | .completion _ _ _ _ => s
  | .hover _ _ => s
  | .runCmd ed =>
    match ed with
    | none => s
    | some fp =>
      if ¬ strEnds fp ".agentuse" then s
      else
        { s with
          terminals := s.terminals ++ ["AgentUse: " ++ fileNameOf fp],
          proc := some ⟨false, true⟩ }
  | .ptyInput data =>
    if data = "\x03" then
      match s.proc with
      | some p => if ¬ p.killed then { s with proc := some { p with killed := true } } else s
      | none => s
    else s

/-! ## Example file systems (used as concrete scan inputs) -/

/-- A small file system: the root holds `a.agentuse` and a subdirectory
    `sub` with `b.agentuse`; every other directory read fails. -/
def exampleFS : FileSystem := fun d =>
  if d = ([] : List String) then Except.ok [⟨"a.agentuse", false⟩, ⟨"sub", true⟩]
  else if d = ["sub"] then Except.ok [⟨"b.agentuse", false⟩]
  else Except.error ()

/-- `exampleFS` with the `sub` directory made unreadable. -/
def exampleFSBroken : FileSystem := fun d =>
  if d = ([] : List String) then Except.ok [⟨"a.agentuse", false⟩, ⟨"sub", true⟩]
  else Except.error ()

/-- Claim-side description, from the spec's words: the files the scan collects
    from the directories it could read.  A path is collected at remaining
    depth `fuel` below `dir` when `dir` itself is readable
    (`fs dir = Except.ok …`, i.e. enumerating it does not fail) and the path
    is a non-skipped `.agentuse` file entry of `dir`, or is collected below a
    non-skipped readable subdirectory with one depth level less.  A directory
    whose enumeration fails contributes nothing, independently of the rest of
    the tree. -/
inductive ScanCollects (fs : FileSystem) : List String → Nat → List String → Prop where
  | found {dir : List String} {fuel : Nat} {entries : List DirEntry} {e : DirEntry} :
      1 ≤ fuel →
      fs dir = Except.ok entries →
      e ∈ entries →
      (strStarts e.name "." || e.name == "node_modules") = false →
      e.isDir = false →
      strEnds e.name ".agentuse" = true →
      ScanCollects fs dir fuel (dir ++ [e.name])
  | sub {dir : List String} {fuel : Nat} {entries : List DirEntry} {e : DirEntry}
      {p : List String} :
      1 ≤ fuel →
      fs dir = Except.ok entries →
      e ∈ entries →
      (strStarts e.name "." || e.name == "node_modules") = false →
      e.isDir = true →
      ScanCollects fs (dir ++ [e.name]) (fuel - 1) p →
      ScanCollects fs dir fuel p

/-! ## Helper lemmas -/

theorem find?_append_or (p : String → Bool) (l₁ l₂ : List String) :
    (l₁ ++ l₂).find? p =
      (match l₁.find? p with
       | some x => some x
       | none => l₂.find? p) := by
  induction l₁ with
  | nil => simp
  | cons a t ih =>
    by_cases h : p a <;> simp [List.find?, h, ih]

/-- The classifier loop returns `true` iff the last scanned line that is an
    opener or a block terminator exists and is an opener (when no such line
    exists, the initial flag is returned). -/
theorem blockScanAux_eq_find (opener : String → Bool) (ls : List String) :
    ∀ acc : Bool,
      blockScanAux opener acc ls =
        (match ls.reverse.find? (fun l => opener l || blockTerm l) with
         | some l => opener l
         | none => acc) := by
  induction ls with
  | nil => intro acc; simp [blockScanAux]
  | cons l ls ih =>
    intro acc
    have hstep : (l :: ls).reverse.find? (fun x => opener x || blockTerm x) =
        (match ls.reverse.find? (fun x => opener x || blockTerm x) with
         | some x => some x
         | none => [l].find? (fun x => opener x || blockTerm x)) := by
      rw [List.reverse_cons, find?_append_or]
    by_cases h1 : opener l
    · rw [hstep]
      simp only [blockScanAux, h1, if_pos, ih true, List.find?, h1, Bool.true_or]
      cases ls.reverse.find? (fun x => opener x || blockTerm x) <;> simp [h1]
    · by_cases h2 : blockTerm l
      · have hacc : blockScanAux opener acc (l :: ls) = blockScanAux opener false ls := by
          cases acc <;> simp [blockScanAux, h1, h2]
        rw [hacc, hstep, ih false]
        have : [l].find? (fun x => opener x || blockTerm x) = some l := by
          simp [List.find?, h1, h2]
        rw [this]
        cases ls.reverse.find? (fun x => opener x || blockTerm x) <;> simp [h1]
      · have hacc : blockScanAux opener acc (l :: ls) = blockScanAux opener acc ls := by
          cases acc <;> simp [blockScanAux, h1, h2]
        rw [hacc, hstep, ih acc]
        have : [l].find? (fun x => opener x || blockTerm x) = none := by
          simp [List.find?, h1, h2]
        rw [this]
        cases ls.reverse.find? (fun x => opener x || blockTerm x) <;> simp

theorem crlfAux_of_no_nl (l : List Char) (h : '\n' ∉ l) : crlfAux l = l := by
  induction l with
  | nil => rfl
  | cons c rest ih =>
    have hc : ¬ c = '\n' := fun hh => h (hh ▸ List.mem_cons_self c rest)
    simp only [crlfAux, if_neg hc]
    rw [ih (fun hm => h (List.mem_cons_of_mem c hm))]

theorem step_tables (s : ExtState) (op : Op) : (step s op).tables = s.tables := by
  cases op with
  | completion _ _ _ _ => rfl
  | hover _ _ => rfl
  | runCmd ed =>
    cases ed with
    | none => rfl
    | some fp =>
      by_cases h : strEnds fp ".agentuse" <;> simp [step, h]
  | ptyInput data =>
    by_cases h : data = "\x03"
    · cases hp : s.proc with
      | none => simp [step, h, hp]
      | some p =>
        by_cases hk : p.killed <;> simp [step, h, hp, hk]
    · simp [step, h]

theorem foldl_step_tables (ops : List Op) :
    ∀ s : ExtState, (ops.foldl step s).tables = s.tables := by
  induction ops with
  | nil => intro s; rfl
  | cons op ops ih =>
    intro s
    rw [List.foldl_cons, ih, step_tables]

/-! ## Claims about the pseudoterminal and the run command -/

/-- C1: opening the pseudoterminal spawns exactly one external child process,
    invoked as the command `agentuse` with argument list `['run', filePath]`
    where `filePath` is the path the pseudoterminal was constructed with; no
    other subprocess is spawned. -/
theorem c1_run_action_single_spawn (filePath : String) :
    (ptyOpen filePath).filter PtyEffect.isSpawn =
      [PtyEffect.spawn "agentuse" ["run", filePath]] := by
  rfl

/-- C2 counterexample: the string forwarded to the display for the stdout
    chunk `"a\nb"` is not the chunk itself (it is `"a\r\nb"`), refuting the
    claim that the forwarded string equals the received chunk. -/
theorem c2_counterexample :
    onStdoutData "a\nb" ≠ [PtyEffect.termWrite "a\nb"] := by
  decide

/-- C2 (amended): every stdout/stderr chunk is forwarded to the display with
    each `\n` replaced by `\r\n` and otherwise unmodified — in particular a
    chunk containing no `\n` is forwarded verbatim — and on process close the
    exit code is surfaced unmodified, embedded in the final display
    message. -/
theorem c2_stream_forwarding (data : String) (code : Int) :
    onStdoutData data = [PtyEffect.termWrite (crlf data)] ∧
    onStderrData data = [PtyEffect.termWrite (crlf data)] ∧
    ('\n' ∉ data.data →
      onStdoutData data = [PtyEffect.termWrite data] ∧
      onStderrData data = [PtyEffect.termWrite data]) ∧
    onCloseEvent code =
      [PtyEffect.termWrite ("\r\n" ++ eqBanner ++ "\r\n"),
       PtyEffect.termWrite ("Process exited with code " ++ toString code ++ "\r\n")] := by
  refine ⟨rfl, rfl, fun h => ?_, rfl⟩
  have : crlf data = data := by
    show String.mk (crlfAux data.data) = data
    rw [crlfAux_of_no_nl data.data h]
  constructor <;> simp [onStdoutData, onStderrData, this]

theorem c2_stream_forwarding_witness :
    onStdoutData "ok" = [PtyEffect.termWrite "ok"] :=
  ((c2_stream_forwarding "ok" 0).2.2.1 (by decide)).1

/-- C3: the run command creates a terminal (and spawns a subprocess) iff
    there is an active editor whose file path ends with `.agentuse`; when
    there is no active editor, or the extension does not match, only an error
    message is shown — no terminal, no subprocess, no save. -/
theorem c3_run_command_guard (activeEditor : Option String) :
    ((∃ n, RunEffect.createTerminal n ∈ agentuseRunCommand activeEditor) ↔
      ∃ fp, activeEditor = some fp ∧ strEnds fp ".agentuse" = true) ∧
    ((∃ c a, RunEffect.ptyEff (PtyEffect.spawn c a) ∈ agentuseRunCommand activeEditor) ↔
      ∃ fp, activeEditor = some fp ∧ strEnds fp ".agentuse" = true) ∧
    (activeEditor = none →
      agentuseRunCommand activeEditor = [RunEffect.showError "No active file"]) ∧
    (∀ fp, activeEditor = some fp → strEnds fp ".agentuse" = false →
      agentuseRunCommand activeEditor =
        [RunEffect.showError "Current file is not an .agentuse file"]) := by
  cases activeEditor with
  | none =>
    refine ⟨?_, ?_, ?_, ?_⟩ <;> simp [agentuseRunCommand]
  | some fp =>
    cases h : strEnds fp ".agentuse" with
    | false =>
      refine ⟨?_, ?_, ?_, ?_⟩ <;> simp [agentuseRunCommand, h, ptyOpen]
    | true =>
      refine ⟨?_, ?_, ?_, ?_⟩ <;> simp [agentuseRunCommand, h, ptyOpen]

theorem c3_run_command_guard_witness :
    agentuseRunCommand (some "notes.txt") =
      [RunEffect.showError "Current file is not an .agentuse file"] ∧
    agentuseRunCommand none = [RunEffect.showError "No active file"] ∧
    (∃ n, RunEffect.createTerminal n ∈ agentuseRunCommand (some "a.agentuse")) :=
  ⟨(c3_run_command_guard (some "notes.txt")).2.2.2 "notes.txt" rfl (by decide),
   (c3_run_command_guard none).2.2.1 rfl,
   (c3_run_command_guard (some "a.agentuse")).1.mpr ⟨"a.agentuse", rfl, by decide⟩⟩

/-- C4: on input `"\x03"` with a live (existing, not-killed) child process,
    SIGINT is sent and nothing is written to the child's stdin; on any other
    input with a stdin stream present, the input is written to stdin
    unchanged; and no signal is ever sent for a non-`"\x03"` input (nor any
    stdin write performed for a `"\x03"` input). -/
theorem c4_handle_input (proc : Option ChildProc) (data : String) :
    (data = "\x03" → ∀ p, proc = some p → p.killed = false →
      handleInput proc data = [PtyEffect.sendSignal "SIGINT", PtyEffect.termWrite "^C\r\n"]) ∧
    (data ≠ "\x03" → ∀ p, proc = some p → p.hasStdin = true →
      handleInput proc data = [PtyEffect.stdinWrite data]) ∧
    (data ≠ "\x03" → ∀ e ∈ handleInput proc data, e.isSendSignal = false) ∧
    (data = "\x03" → ∀ e ∈ handleInput proc data, e.isStdinWrite = false) := by
  refine ⟨?_, ?_, ?_, ?_⟩
  · intro h p hp hk
    subst h; cases hp
    simp [handleInput, hk]
  · intro h p hp hs
    cases hp
    simp [handleInput, h, hs]
  · intro h e he
    cases hp : proc with
    | none => rw [hp] at he; simp [handleInput, h] at he
    | some p =>
      rw [hp] at he
      by_cases hs : p.hasStdin
      · simp [handleInput, h, hs] at he
        subst he; rfl
      · simp [handleInput, h, hs] at he
  · intro h e he
    subst h
    cases hp : proc with
    | none => rw [hp] at he; simp [handleInput] at he
    | some p =>
      rw [hp] at he
      by_cases hk : p.killed
      · simp [handleInput, hk] at he
      · simp [handleInput, hk] at he
        rcases he with he | he <;> subst he <;> rfl

theorem c4_handle_input_witness :
    handleInput (some ⟨false, true⟩) "\x03" =
      [PtyEffect.sendSignal "SIGINT", PtyEffect.termWrite "^C\r\n"] ∧
    handleInput (some ⟨false, true⟩) "hi" = [PtyEffect.stdinWrite "hi"] :=
  ⟨(c4_handle_input (some ⟨false, true⟩) "\x03").1 rfl _ rfl rfl,
   (c4_handle_input (some ⟨false, true⟩) "hi").2.1 (by decide) _ rfl rfl⟩

/-- C7: in every static lookup table the keys/labels are pairwise distinct,
    and no sequence of extension operations (completion, hover, run, terminal
    input) modifies any table: after any operation sequence the tables equal
    the tables at load time. -/
theorem c7_tables_invariant (ops : List Op) :
    (MODELS.map ModelEntry.label).Nodup ∧
    (FRONTMATTER_FIELDS.map FieldEntry.label).Nodup ∧
    (MCP_SERVER_FIELDS.map FieldEntry.label).Nodup ∧
    (MCP_COMMANDS.map ModelEntry.label).Nodup ∧
    (COMMON_MCP_SERVERS.map Prod.fst).Nodup ∧
    (ops.foldl step initState).tables = initTables := by
  refine ⟨by decide, by decide, by decide, by decide, by decide, ?_⟩
  rw [foldl_step_tables]
  rfl

/-! ## Claims about the block classifiers -/

theorem isInBlock_characterization (opener : String → Bool) (fm : String) (L : Nat)
    (h1 : 1 ≤ L) (h2 : L - 1 < (linesOf fm).length) :
    isInBlock opener fm L =
      Option.any opener
        (((linesOf fm).take L).reverse.find? (fun l => opener l || blockTerm l)) := by
  have hL0 : ¬ (L = 0) := by omega
  have hlen : ¬ ((linesOf fm).length ≤ L - 1) := by omega
  have hL : (L - 1) + 1 = L := by omega
  simp only [isInBlock, if_neg hL0, if_neg hlen, hL]
  rw [blockScanAux_eq_find]
  cases ((linesOf fm).take L).reverse.find? (fun l => opener l || blockTerm l) <;>
    simp [Option.any]

theorem isInBlock_out_of_range (opener : String → Bool) (fm : String) (L : Nat)
    (h : L = 0 ∨ (linesOf fm).length ≤ L - 1) :
    isInBlock opener fm L = false := by
  rcases h with h | h
  · simp [isInBlock, h]
  · by_cases hL0 : L = 0
    · simp [isInBlock, hL0]
    · simp [isInBlock, hL0, if_pos h]

/-- C5: for a cursor line index `L` whose frontmatter index `L - 1` is in
    range, each classifier returns `true` iff the last line among frontmatter
    lines `0 .. L-1` that is an opener of its key or a block terminator
    (nonblank after trimming, not beginning with whitespace) exists and is an
    opener; out of range, each returns `false`. -/
theorem c5_classifier_characterization (fm : String) (L : Nat) :
    (1 ≤ L → L - 1 < (linesOf fm).length →
      (isInMcpServersBlock fm L =
         Option.any mcpOpenerLine
           (((linesOf fm).take L).reverse.find?
             (fun l => mcpOpenerLine l || blockTerm l)) ∧
       isInSubagentsBlock fm L =
         Option.any subagentsOpenerLine
           (((linesOf fm).take L).reverse.find?
             (fun l => subagentsOpenerLine l || blockTerm l)) ∧
       isInToolsBlock fm L =
         Option.any toolsOpenerLine
           (((linesOf fm).take L).reverse.find?
             (fun l => toolsOpenerLine l || blockTerm l)))) ∧
    ((L = 0 ∨ (linesOf fm).length ≤ L - 1) →
      isInMcpServersBlock fm L = false ∧
      isInSubagentsBlock fm L = false ∧
      isInToolsBlock fm L = false) := by
  constructor
  · intro h1 h2
    exact ⟨isInBlock_characterization mcpOpenerLine fm L h1 h2,
           isInBlock_characterization subagentsOpenerLine fm L h1 h2,
           isInBlock_characterization toolsOpenerLine fm L h1 h2⟩
  · intro h
    exact ⟨isInBlock_out_of_range mcpOpenerLine fm L h,
           isInBlock_out_of_range subagentsOpenerLine fm L h,
           isInBlock_out_of_range toolsOpenerLine fm L h⟩

theorem c5_classifier_characterization_witness :
    isInMcpServersBlock "model: x\nmcp_servers:\n  fs:" 3 = true ∧
    isInMcpServersBlock "mcp_servers:\n  fs:\ntools:\n  - a" 4 = false ∧
    isInSubagentsBlock "subagents:\n  - path: ./x" 2 = true ∧
    isInToolsBlock "tools:" 9 = false := by
  have h1 := ((c5_classifier_characterization "model: x\nmcp_servers:\n  fs:" 3).1
    (by omega) (by decide)).1
  have h2 := ((c5_classifier_characterization "mcp_servers:\n  fs:\ntools:\n  - a" 4).1
    (by omega) (by decide)).1
  have h3 := ((c5_classifier_characterization "subagents:\n  - path: ./x" 2).1
    (by omega) (by decide)).2.1
  have h4 := (c5_classifier_characterization "tools:" 9).2 (by decide)
  exact ⟨by rw [h1]; decide, by rw [h2]; decide, by rw [h3]; decide, h4.2.2⟩

/-! ### Mutual exclusion of the classifiers -/

theorem isPrefixOf_head {c : Char} {p l : List Char}
    (h : List.isPrefixOf (c :: p) l = true) : ∃ t, l = c :: t := by
  cases l with
  | nil => simp [List.isPrefixOf] at h
  | cons a t =>
    simp only [List.isPrefixOf, Bool.and_eq_true, beq_iff_eq] at h
    exact ⟨t, by rw [h.1]⟩

theorem blockTerm_of_head {l : String} {c : Char} {t : List Char}
    (h : l.data = c :: t) (hc : jsIsSpace c = false) : blockTerm l = true := by
  simp only [blockTerm, trimTruthy, headIsSpace, h, List.any_cons, hc,
    Bool.not_false, Bool.true_or, Bool.true_and]

theorem mcpOpenerLine_head {l : String} (h : mcpOpenerLine l = true) :
    ∃ t, l.data = 'm' :: t := by
  simp only [mcpOpenerLine, strStarts, Bool.or_eq_true] at h
  rcases h with h | h
  · exact isPrefixOf_head (p := "cp_servers:".data) h
  · exact isPrefixOf_head (p := "cpServers:".data) h

theorem subagentsOpenerLine_head {l : String} (h : subagentsOpenerLine l = true) :
    ∃ t, l.data = 's' :: t := by
  simp only [subagentsOpenerLine, strStarts] at h
  exact isPrefixOf_head (p := "ubagents:".data) h

theorem toolsOpenerLine_head {l : String} (h : toolsOpenerLine l = true) :
    ∃ t, l.data = 't' :: t := by
  simp only [toolsOpenerLine, strStarts] at h
  exact isPrefixOf_head (p := "ools:".data) h

theorem isInBlock_mutual_exclusion (o₁ o₂ : String → Bool)
    (hterm₁ : ∀ l, o₁ l = true → blockTerm l = true)
    (hterm₂ : ∀ l, o₂ l = true → blockTerm l = true)
    (hx : ∀ l, o₁ l = true → o₂ l = false)
    (fm : String) (L : Nat) :
    (isInBlock o₁ fm L && isInBlock o₂ fm L) = false := by
  by_cases hoob : L = 0 ∨ (linesOf fm).length ≤ L - 1
  · rw [isInBlock_out_of_range o₁ fm L hoob]
    simp
  · push_neg at hoob
    have h1 : 1 ≤ L := by omega
    have h2 : L - 1 < (linesOf fm).length := by omega
    rw [isInBlock_characterization o₁ fm L h1 h2,
        isInBlock_characterization o₂ fm L h1 h2]
    have e₁ : (fun l => o₁ l || blockTerm l) = (fun l => blockTerm l) := by
      funext l
      cases ho : o₁ l
      · simp
      · simp [hterm₁ l ho]
    have e₂ : (fun l => o₂ l || blockTerm l) = (fun l => blockTerm l) := by
      funext l
      cases ho : o₂ l
      · simp
      · simp [hterm₂ l ho]
    rw [e₁, e₂]
    cases hf : ((linesOf fm).take L).reverse.find? (fun l => blockTerm l) with
    | none => simp [Option.any]
    | some l =>
      simp only [Option.any]
      cases ho : o₁ l
      · simp
      · simp [hx l ho]

/-- C8: at most one of the three block classifiers returns `true` at any
    document position, because a line that opens one block is a terminator
    line for the other two. -/
theorem c8_classifiers_exclusive (fm : String) (L : Nat) :
    (isInMcpServersBlock fm L && isInSubagentsBlock fm L) = false ∧
    (isInMcpServersBlock fm L && isInToolsBlock fm L) = false ∧
    (isInSubagentsBlock fm L && isInToolsBlock fm L) = false := by
  have hm : ∀ l, mcpOpenerLine l = true → blockTerm l = true := by
    intro l h
    obtain ⟨t, ht⟩ := mcpOpenerLine_head h
    exact blockTerm_of_head ht (by decide)
  have hs : ∀ l, subagentsOpenerLine l = true → blockTerm l = true := by
    intro l h
    obtain ⟨t, ht⟩ := subagentsOpenerLine_head h
    exact blockTerm_of_head ht (by decide)
  have ht : ∀ l, toolsOpenerLine l = true → blockTerm l = true := by
    intro l h
    obtain ⟨t, ht⟩ := toolsOpenerLine_head h
    exact blockTerm_of_head ht (by decide)
  have hms : ∀ l, mcpOpenerLine l = true → subagentsOpenerLine l = false := by
    intro l h
    obtain ⟨t, hd⟩ := mcpOpenerLine_head h
    cases hv : subagentsOpenerLine l
    · rfl
    · obtain ⟨t', hd'⟩ := subagentsOpenerLine_head hv
      rw [hd] at hd'
      exact absurd (List.head_eq_of_cons_eq hd') (by decide)
  have hmt : ∀ l, mcpOpenerLine l = true → toolsOpenerLine l = false := by
    intro l h
    obtain ⟨t, hd⟩ := mcpOpenerLine_head h
    cases hv : toolsOpenerLine l
    · rfl
    · obtain ⟨t', hd'⟩ := toolsOpenerLine_head hv
      rw [hd] at hd'
      exact absurd (List.head_eq_of_cons_eq hd') (by decide)
  have hst : ∀ l, subagentsOpenerLine l = true → toolsOpenerLine l = false := by
    intro l h
    obtain ⟨t, hd⟩ := subagentsOpenerLine_head h
    cases hv : toolsOpenerLine l
    · rfl
    · obtain ⟨t', hd'⟩ := toolsOpenerLine_head hv
      rw [hd] at hd'
      exact absurd (List.head_eq_of_cons_eq hd') (by decide)
  exact ⟨isInBlock_mutual_exclusion mcpOpenerLine subagentsOpenerLine hm hs hms fm L,
         isInBlock_mutual_exclusion mcpOpenerLine toolsOpenerLine hm ht hmt fm L,
         isInBlock_mutual_exclusion subagentsOpenerLine toolsOpenerLine hs ht hst fm L⟩

/-! ## Claim about the top-level completion branch -/

/-- C9: at a cursor inside the frontmatter on a blank, zero-indentation line
    prefix, in no block context, the completion list is exactly the entries
    of the frontmatter-fields table whose label is not already a top-level
    key of the frontmatter, in table order. -/
theorem c9_top_level_field_completions (tbl : Tables) (agentFiles : List CItem)
    (text : String) (line ch : Nat) (content : String) (fmEnd : Nat)
    (hfm : frontmatterMatch text = some (content, fmEnd))
    (hblank : (lineAt text line).data.take ch = [])
    (hlo : 4 ≤ offsetAt text line ch)
    (hhi : offsetAt text line ch ≤ fmEnd)
    (hm : isInMcpServersBlock content line = false)
    (hs : isInSubagentsBlock content line = false)
    (ht : isInToolsBlock content line = false) :
    provideCompletionItems tbl agentFiles text line ch =
      (tbl.frontmatterFields.filter
        (fun f => !((getExistingFields content).contains f.label))).map
        (fun f => createCompletion f.label f.detail f.insertText CKind.property) := by
  have hoff : ¬ (offsetAt text line ch < 4 ∨ offsetAt text line ch > fmEnd) := by omega
  simp only [provideCompletionItems, hfm, hblank, if_neg hoff]
  simp [hm, hs, ht,
    (by decide : matchesModelValue (String.mk []) = false),
    (by decide : matchesCommandValue (String.mk []) = false),
    (by decide : matchesDashOnly (String.mk []) = false),
    (by decide : matchesPathValue (String.mk []) = false),
    (by decide : trimTruthy (String.mk []) = false)]

theorem c9_top_level_field_completions_witness :
    provideCompletionItems initTables [] "---\nmodel: x\n\n---\nbody" 2 0 =
      [createCompletion "timeout" "Execution timeout in milliseconds" "timeout: "
         CKind.property,
       createCompletion "maxSteps" "Maximum reasoning steps" "maxSteps: "
         CKind.property,
       createCompletion "tools" "Custom tool references" "tools:\n  - "
         CKind.property,
       createCompletion "mcp_servers" "MCP server configurations" "mcp_servers:\n  "
         CKind.property,
       createCompletion "subagents" "Sub-agent definitions" "subagents:\n  - path: "
         CKind.property] := by
  rw [c9_top_level_field_completions initTables [] "---\nmodel: x\n\n---\nbody" 2 0
    "model: x\n" 17 (by decide) (by decide) (by decide) (by decide)
    (by decide) (by decide) (by decide)]
  decide

/-! ## Claims about the workspace scan -/

theorem findRec_unfold (fs : FileSystem) (dir : List String) (md cd : Nat) :
    findAgentUseFilesRecursive fs dir md cd =
      (if md ≤ cd then []
       else
         match fs dir with
         | .error _ => []
         | .ok entries =>
           entries.flatMap (fun e =>
             if strStarts e.name "." || e.name == "node_modules" then []
             else if e.isDir then
               findAgentUseFilesRecursive fs (dir ++ [e.name]) md (cd + 1)
             else if strEnds e.name ".agentuse" then [dir ++ [e.name]]
             else [])) := by
  rw [findAgentUseFilesRecursive]

theorem findRec_degrade_subset (fs fs' : FileSystem)
    (hdeg : ∀ d, fs' d = fs d ∨ fs' d = Except.error ()) :
    ∀ (k : Nat) (dir : List String) (md cd : Nat), md - cd ≤ k →
      ∀ p, p ∈ findAgentUseFilesRecursive fs' dir md cd →
        p ∈ findAgentUseFilesRecursive fs dir md cd := by
  intro k
  induction k with
  | zero =>
    intro dir md cd hk p hp
    rw [findRec_unfold] at hp
    rw [if_pos (by omega : md ≤ cd)] at hp
    simp at hp
  | succ k ih =>
    intro dir md cd hk p hp
    by_cases hd : md ≤ cd
    · rw [findRec_unfold, if_pos hd] at hp
      simp at hp
    · rcases hdeg dir with he | he
      · rw [findRec_unfold, if_neg hd, he] at hp
        rw [findRec_unfold, if_neg hd]
        cases hfs : fs dir with
        | error e => rw [hfs] at hp; simp at hp
        | ok entries =>
          rw [hfs] at hp
          rw [List.mem_flatMap] at hp ⊢
          obtain ⟨e, hmem, hpe⟩ := hp
          refine ⟨e, hmem, ?_⟩
          by_cases h1 : (strStarts e.name "." || e.name == "node_modules") = true
          · rw [if_pos h1] at hpe; simp at hpe
          · rw [if_neg h1] at hpe
            rw [if_neg h1]
            by_cases h2 : e.isDir = true
            · rw [if_pos h2] at hpe
              rw [if_pos h2]
              exact ih (dir ++ [e.name]) md (cd + 1) (by omega) p hpe
            · rw [if_neg h2] at hpe
              rw [if_neg h2]
              exact hpe
      · rw [findRec_unfold, if_neg hd, he] at hp
        simp at hp

theorem mem_findRec_iff_collects (fs : FileSystem) :
    ∀ (k : Nat) (dir : List String) (md cd : Nat), md - cd = k →
      ∀ p, (p ∈ findAgentUseFilesRecursive fs dir md cd ↔ ScanCollects fs dir k p) := by
  intro k
  induction k with
  | zero =>
    intro dir md cd hk p
    rw [findRec_unfold, if_pos (by omega : md ≤ cd)]
    constructor
    · intro hp; simp at hp
    · intro h
      cases h with
      | found h1 _ _ _ _ _ => exact absurd h1 (by omega)
      | sub h1 _ _ _ _ _ => exact absurd h1 (by omega)
  | succ k ih =>
    intro dir md cd hk p
    have hd : ¬ md ≤ cd := by omega
    rw [findRec_unfold, if_neg hd]
    cases hfs : fs dir with
    | error err =>
      constructor
      · intro hp; simp at hp
      · intro h
        cases h with
        | found h1 hfs' _ _ _ _ => rw [hfs] at hfs'; simp at hfs'
        | sub h1 hfs' _ _ _ _ => rw [hfs] at hfs'; simp at hfs'
    | ok entries =>
      simp only [List.mem_flatMap]
      constructor
      · rintro ⟨e, hmem, hpe⟩
        by_cases h1 : (strStarts e.name "." || e.name == "node_modules") = true
        · rw [if_pos h1] at hpe; simp at hpe
        · rw [if_neg h1] at hpe
          have h1f : (strStarts e.name "." || e.name == "node_modules") = false := by
            cases hb : (strStarts e.name "." || e.name == "node_modules")
            · rfl
            · exact absurd hb h1
          by_cases h2 : e.isDir = true
          · rw [if_pos h2] at hpe
            have hrec := (ih (dir ++ [e.name]) md (cd + 1) (by omega) p).mp hpe
            exact ScanCollects.sub (by omega) hfs hmem h1f h2 hrec
          · rw [if_neg h2] at hpe
            have h2f : e.isDir = false := by
              cases hb : e.isDir
              · rfl
              · exact absurd hb h2
            by_cases h3 : strEnds e.name ".agentuse" = true
            · rw [if_pos h3] at hpe
              simp at hpe
              subst hpe
              exact ScanCollects.found (by omega) hfs hmem h1f h2f h3
            · rw [if_neg h3] at hpe; simp at hpe
      · intro h
        cases h with
        | found h1 hfs' hmem hskip hdir hend =>
          rw [hfs] at hfs'
          injection hfs' with he
          subst he
          refine ⟨_, hmem, ?_⟩
          rw [if_neg (by simp [hskip]), if_neg (by simp [hdir]), if_pos hend]
          simp
        | sub h1 hfs' hmem hskip hdir hrec =>
          rw [hfs] at hfs'
          injection hfs' with he
          subst he
          refine ⟨_, hmem, ?_⟩
          rw [if_neg (by simp [hskip]), if_pos hdir]
          exact (ih _ md (cd + 1) (by omega) p).mpr hrec

/-- C6: subagent file discovery never propagates a failure.  The scan returns
    exactly the files it collects from the directories it could read (so a
    directory whose enumeration fails contributes nothing while every file
    reached through readable directories is still returned), degrading a file
    system by making any set of directories unreadable only removes results,
    an unreadable root yields the empty list in the worst case, and
    `getAgentUseFiles` returns the empty list when the document belongs to no
    workspace folder. -/
theorem c6_scan_error_resilience :
    (∀ (fs : FileSystem) (dir : List String) (md cd : Nat) (p : List String),
        p ∈ findAgentUseFilesRecursive fs dir md cd ↔
          ScanCollects fs dir (md - cd) p) ∧
    (∀ fs fs' : FileSystem, (∀ d, fs' d = fs d ∨ fs' d = Except.error ()) →
      ∀ (dir : List String) (md cd : Nat) (p : List String),
        p ∈ findAgentUseFilesRecursive fs' dir md cd →
        p ∈ findAgentUseFilesRecursive fs dir md cd) ∧
    (∀ (fs : FileSystem) (dir : List String) (md cd : Nat),
      fs dir = Except.error () →
      findAgentUseFilesRecursive fs dir md cd = []) ∧
    (∀ fs : FileSystem, getAgentUseFiles fs none = []) := by
  refine ⟨?_, ?_, ?_, fun _ => rfl⟩
  · intro fs dir md cd p
    exact mem_findRec_iff_collects fs (md - cd) dir md cd rfl p
  · intro fs fs' hdeg dir md cd p hp
    exact findRec_degrade_subset fs fs' hdeg (md - cd) dir md cd (by omega) p hp
  · intro fs dir md cd herr
    rw [findRec_unfold]
    by_cases hd : md ≤ cd
    · rw [if_pos hd]
    · rw [if_neg hd, herr]

theorem c6_scan_error_resilience_witness :
    ["a.agentuse"] ∈ findAgentUseFilesRecursive exampleFSBroken ([] : List String) 3 0 ∧
    ["a.agentuse"] ∈ findAgentUseFilesRecursive exampleFS ([] : List String) 3 0 ∧
    findAgentUseFilesRecursive exampleFS ["nope"] 3 0 = [] ∧
    getAgentUseFiles exampleFS none = [] := by
  have hdeg : ∀ d, exampleFSBroken d = exampleFS d ∨ exampleFSBroken d = Except.error () := by
    intro d
    by_cases h : d = ([] : List String)
    · left; simp [exampleFS, exampleFSBroken, h]
    · right; simp [exampleFSBroken, h]
  have hroot : exampleFSBroken ([] : List String) =
      Except.ok [⟨"a.agentuse", false⟩, ⟨"sub", true⟩] := by
    simp [exampleFSBroken]
  have hbroken : ["a.agentuse"] ∈ findAgentUseFilesRecursive exampleFSBroken
      ([] : List String) 3 0 :=
    (c6_scan_error_resilience.1 exampleFSBroken [] 3 0 ["a.agentuse"]).mpr
      (ScanCollects.found (e := ⟨"a.agentuse", false⟩) (by omega) hroot
        (by simp) (by decide) rfl (by decide))
  exact ⟨hbroken,
         c6_scan_error_resilience.2.1 exampleFS exampleFSBroken hdeg [] 3 0
           ["a.agentuse"] hbroken,
         c6_scan_error_resilience.2.2.1 exampleFS ["nope"] 3 0 (by simp [exampleFS]),
         c6_scan_error_resilience.2.2.2 exampleFS⟩

theorem findRec_shape (fs : FileSystem) :
    ∀ (k : Nat) (dir : List String) (md cd : Nat), md - cd ≤ k →
      ∀ p, p ∈ findAgentUseFilesRecursive fs dir md cd →
        ∃ ds name, p = dir ++ ds ++ [name] ∧
          strEnds name ".agentuse" = true ∧
          ds.length + 1 ≤ md - cd ∧
          (∀ c ∈ ds ++ [name], strStarts c "." = false ∧ c ≠ "node_modules") := by
  intro k
  induction k with
  | zero =>
    intro dir md cd hk p hp
    rw [findRec_unfold, if_pos (by omega : md ≤ cd)] at hp
    simp at hp
  | succ k ih =>
    intro dir md cd hk p hp
    rw [findRec_unfold] at hp
    by_cases hd : md ≤ cd
    · rw [if_pos hd] at hp; simp at hp
    · rw [if_neg hd] at hp
      cases hfs : fs dir with
      | error e => rw [hfs] at hp; simp at hp
      | ok entries =>
        rw [hfs] at hp
        rw [List.mem_flatMap] at hp
        obtain ⟨e, hmem, hpe⟩ := hp
        by_cases h1 : (strStarts e.name "." || e.name == "node_modules") = true
        · rw [if_pos h1] at hpe; simp at hpe
        · rw [if_neg h1] at hpe
          have hname : strStarts e.name "." = false ∧ e.name ≠ "node_modules" := by
            rw [Bool.or_eq_true] at h1
            push_neg at h1
            refine ⟨by simpa using h1.1, ?_⟩
            intro hh
            exact h1.2 (by simp [hh])
          by_cases h2 : e.isDir = true
          · rw [if_pos h2] at hpe
            obtain ⟨ds, name, hpeq, hend, hlen, hclean⟩ :=
              ih (dir ++ [e.name]) md (cd + 1) (by omega) p hpe
            refine ⟨e.name :: ds, name, by rw [hpeq]; simp, hend,
              by simp only [List.length_cons]; omega, ?_⟩
            intro c hc
            have hc2 : c = e.name ∨ c ∈ ds ∨ c = name := by simpa using hc
            rcases hc2 with hc' | hc' | hc'
            · subst hc'; exact hname
            · exact hclean c (by simp [hc'])
            · exact hclean c (by simp [hc'])
          · rw [if_neg h2] at hpe
            by_cases h3 : strEnds e.name ".agentuse" = true
            · rw [if_pos h3] at hpe
              simp at hpe
              refine ⟨[], e.name, by simp [hpe], h3,
                by simp only [List.length_nil]; omega, ?_⟩
              intro c hc
              simp at hc
              subst hc
              exact hname
            · rw [if_neg h3] at hpe
              simp at hpe

/-- C10: every path returned by the depth-3 scan names a file whose base name
    ends with `.agentuse`, all of whose path components below the scanned
    root avoid names starting with `.` and the name `node_modules`, and which
    lies at most two subdirectory levels below the root (only three directory
    levels are ever scanned). -/
theorem c10_scan_result_shape (fs : FileSystem) (dir p : List String)
    (hp : p ∈ findAgentUseFilesRecursive fs dir 3 0) :
    ∃ ds name, p = dir ++ ds ++ [name] ∧
      strEnds name ".agentuse" = true ∧
      ds.length ≤ 2 ∧
      (∀ c ∈ ds ++ [name], strStarts c "." = false ∧ c ≠ "node_modules") := by
  obtain ⟨ds, name, h1, h2, h3, h4⟩ :=
    findRec_shape fs 3 dir 3 0 (by omega) p hp
  exact ⟨ds, name, h1, h2, by omega, h4⟩

theorem c10_scan_result_shape_witness :
    ∃ ds name, ["sub", "b.agentuse"] = ([] : List String) ++ ds ++ [name] ∧
      strEnds name ".agentuse" = true ∧
      ds.length ≤ 2 ∧
      (∀ c ∈ ds ++ [name], strStarts c "." = false ∧ c ≠ "node_modules") := by
  apply c10_scan_result_shape exampleFS [] ["sub", "b.agentuse"]
  have hb : findAgentUseFilesRecursive exampleFS ([] : List String) 3 0 =
      [["a.agentuse"], ["sub", "b.agentuse"]] := by
    rw [findRec_unfold]
    simp [exampleFS, findRec_unfold, strStarts, strEnds, List.isPrefixOf,
      List.isSuffixOf]
  rw [hb]
  simp

end AgentUse
